import Mathlib

set_option maxRecDepth 1000000

set_option maxHeartbeats 4000000

namespace PoreSpy

/-!
Verification of the porespy SNOW filter stack (`porespy/filters/__funcs__.py`)
against its natural-language specification.

The source operates on 1/2/3-dimensional numpy arrays; all of the behaviour
exercised by the claims occurs in (at most) two dimensions, so images are
embedded as total functions `ℤ × ℤ → α` together with explicit bounds
`(m n : ℕ)` (row count and column count).  Reads outside the array, which
numpy would fault on, are normalised through `restrict`, which yields the
array value inside the bounds and a default outside, mirroring the fact
that the source code only ever indexes inside the array.  Float arithmetic
in the source is embedded as exact rational arithmetic.

Boolean sub-images that the source manipulates as arrays of booleans
(peak clusters, dilated working sets) are embedded as `Finset (ℤ × ℤ)`
of their `True` positions, an equivalent representation of the same data.
-/


/-! ## 1-D linear distance transform (`distance_transform_lin`)

The claims exercise `distance_transform_lin` on one-dimensional arrays, so
the embedding instantiates the function at `ndim = 1` (the axis argument is
then necessarily 0).  Arrays are integer lists, as in the source where a
boolean input is promoted to 0/1 integers by the arithmetic. -/


/-- `sp.cumsum` of the 0/1 image `im > 0`. -/
def cumsumPos (im : List ℤ) : List ℤ :=
  (im.foldl (fun st v => ((st.1 + (if 0 < v then 1 else 0)), st.2 ++ [st.1 + (if 0 < v then 1 else 0)])) ((0 : ℤ), ([] : List ℤ))).2

/-- `sp.diff` along the only axis: consecutive differences. -/
def diffList (l : List ℤ) : List ℤ :=
  List.zipWith (fun a b => b - a) l (l.drop 1)

/-- `sp.minimum.accumulate`: running minimum. -/
def minAccum (l : List ℤ) : List ℤ :=
  match l with
  | [] => []
  | a :: t => (t.foldl (fun st v => (min st.1 v, st.2 ++ [min st.1 v])) (a, [a])).2

/-- The `else` branch of `distance_transform_lin` (mode `'forward'`),
instantiated for a 1-dimensional image:
`b = cumsum(im > 0)`, `c = diff(b * (im == 0))`, `d = minimum.accumulate c`,
`e = pad(d, [1, 0])`, result `f = im * (b + e)`. -/
def dtlForward (im : List ℤ) : List ℤ :=
  let b := cumsumPos im
  let c := diffList (List.zipWith (fun bv v => bv * (if v = 0 then 1 else 0)) b im)
  let d := minAccum c
  let e := (0 : ℤ) :: d
  List.zipWith (fun v be => v * be) im (List.zipWith (· + ·) b e)

/-- `distance_transform_lin` for a 1-dimensional image.  The mode dispatch is
exactly the source's: `'backward'`/`'reverse'` flip, recurse with
`'forward'`, flip back; `'both'` takes the pointwise minimum of the forward
and backward results; every other mode string falls through to the
`else` branch, i.e. is computed as `'forward'`. -/
def distance_transform_lin (im : List ℤ) (mode : String) : List ℤ :=
  if mode = "backward" ∨ mode = "reverse" then
    (dtlForward im.reverse).reverse
  else if mode = "both" then
    List.zipWith min (dtlForward im) ((dtlForward im.reverse).reverse)
  else
    dtlForward im

/-- The 1-D test vector of the specification: `[0,1,1,1,0,1,1,0]`. -/
def dtlTestIm : List ℤ := [0, 1, 1, 1, 0, 1, 1, 0]

/-! ## Grid infrastructure -/


/-- A voxel position (row, column). -/
abbrev Cell := ℤ × ℤ

/-- The integers `a, a+1, …, b-1`. -/
def rangeZ (a b : ℤ) : List ℤ := (List.range (b - a).toNat).map (fun (k : ℕ) => a + (k : ℤ))

/-- Membership of a cell in the `m × n` array. -/
def inBnd (m n : ℕ) (p : Cell) : Prop :=
  0 ≤ p.1 ∧ p.1 < (m : ℤ) ∧ 0 ≤ p.2 ∧ p.2 < (n : ℤ)

instance (m n : ℕ) (p : Cell) : Decidable (inBnd m n p) := by
  unfold inBnd; infer_instance

/-- All cells of the `m × n` array in scan (row-major) order, the order in
which `scipy.ndimage.label` first encounters voxels. -/
def cellsList (m n : ℕ) : List Cell :=
  (rangeZ 0 m).flatMap (fun i => (rangeZ 0 n).map (fun j => (i, j)))

/-- Normalised array read: the stored value inside the `m × n` bounds, the
default `d` outside.  The source only ever indexes inside the array, so
images that agree inside the bounds are the same array. -/
def restrict (d : α) (m n : ℕ) (g : Cell → α) : Cell → α :=
  fun p => if inBnd m n p then g p else d

/-- Decidable cell-wise test over the array. -/
def allCells (m n : ℕ) (f : Cell → Bool) : Bool := (cellsList m n).all f

/-- Decidable cell-wise equality of two images. -/
def gridsEqOn [DecidableEq α] (m n : ℕ) (g h : Cell → α) : Bool :=
  allCells m n (fun p => decide (g p = h p))

/-- Maximum of a rational list, 0 junk value on the empty list (the source's
`sp.amax` is only applied to non-empty arrays). -/
def lmaxQ : List ℚ → ℚ
  | [] => 0
  | a :: t => t.foldl max a

/-! ## Peak finder (`find_peaks`)

`find_peaks` computes `im = dt > 0`, takes the maximum filter of the
perturbed field `dt + 2*(~im)` over a circular footprint `disk(r_max)`
(`scipy.ndimage.maximum_filter`, whose default boundary mode is
`'reflect'`), and returns `(dt == mx) * im`. -/


/-- scipy's `'reflect'` boundary mode for one axis of length `len`:
`(d c b a | a b c d | d c b a)`. -/
def reflIdx (len : ℕ) (i : ℤ) : ℤ :=
  if i % (2 * (len : ℤ)) < (len : ℤ) then i % (2 * (len : ℤ))
  else 2 * (len : ℤ) - 1 - i % (2 * (len : ℤ))

/-- `'reflect'` boundary handling on both axes. -/
def reflCell (m n : ℕ) (p : Cell) : Cell := (reflIdx m p.1, reflIdx n p.2)

/-- The offsets of `skimage.morphology.disk(r)`: all `(di, dj)` with
`di² + dj² ≤ r²`. -/
def diskOffsets (r : ℕ) : List Cell :=
  (rangeZ (-(r : ℤ)) ((r : ℤ) + 1)).flatMap (fun di =>
    ((rangeZ (-(r : ℤ)) ((r : ℤ) + 1)).filter
        (fun dj => decide (di * di + dj * dj ≤ (r : ℤ) * (r : ℤ)))).map (fun dj => (di, dj)))

/-- The perturbed field `dt + 2*(~im)` with `im = dt > 0`. -/
def pertF (m n : ℕ) (dt : Cell → ℚ) : Cell → ℚ :=
  fun q => restrict 0 m n dt q + (if 0 < restrict 0 m n dt q then 0 else 2)

/-- `spim.maximum_filter(dt + 2*(~im), footprint=disk(r_max))` with the
default `'reflect'` boundary mode. -/
def maxFilt (m n : ℕ) (dt : Cell → ℚ) (rmax : ℕ) : Cell → ℚ :=
  fun p => lmaxQ ((diskOffsets rmax).map
    (fun o => pertF m n dt (reflCell m n (p.1 + o.1, p.2 + o.2))))

/-- `find_peaks`: `peaks = (dt == mx) * im`. -/
def find_peaks (m n : ℕ) (dt : Cell → ℚ) (rmax : ℕ) : Cell → Bool :=
  fun p => decide (restrict 0 m n dt p = maxFilt m n dt rmax p) &&
    decide (0 < restrict 0 m n dt p)

/-- C3 counterexample input: a 3×7 strip whose middle row is void at
uniform distance 1 from the solid rows above and below. -/
def stripDt : Cell → ℚ := fun p => if p.1 = 1 then 1 else 0

/-! ## Connected-component labelling (`scipy.ndimage.label`)

`scipy.ndimage.label` returns components numbered by the scan-order position
of their first-encountered voxel.  The embedding represents the labelled
image by the ordered list of its components (component `i` carries label
`i+1`): a scan over the cells in row-major order collects, at each
foreground cell not yet covered, the connected component of that cell
(computed as a fixpoint of one-step growth). -/


/-- Full (8-)connectivity, the structuring element `square(3)`/`cube(3)`. -/
def adj8 (a b : Cell) : Bool := decide ((a.1 - b.1).natAbs ≤ 1) && decide ((a.2 - b.2).natAbs ≤ 1)

/-- Face (4-)connectivity, `scipy.ndimage.label`'s default structuring
element. -/
def adj4 (a b : Cell) : Bool := decide ((a.1 - b.1).natAbs + (a.2 - b.2).natAbs ≤ 1)

/-- The cells of the `m × n` array as a finite set. -/
def cellsFS (m n : ℕ) : Finset Cell := (cellsList m n).toFinset

/-- One step of connected-component growth: add every in-bounds foreground
cell adjacent to the current set. -/
def grow (g : Cell → Bool) (adj : Cell → Cell → Bool) (m n : ℕ) (acc : Finset Cell) : Finset Cell :=
  acc ∪ (cellsFS m n).filter (fun c => g c = true ∧ c ∉ acc ∧ ∃ a ∈ acc, adj a c = true)

/-- Fuel-bounded fixpoint of `grow` (`m*n` steps always suffice). -/
def reachAux (g : Cell → Bool) (adj : Cell → Cell → Bool) (m n : ℕ) : ℕ → Finset Cell → Finset Cell
  | 0, acc => acc
  | fuel + 1, acc =>
    let acc2 := grow g adj m n acc
    if acc2 = acc then acc else reachAux g adj m n fuel acc2

/-- The connected component of the cell `c` in the foreground of `g`. -/
def reach (g : Cell → Bool) (adj : Cell → Cell → Bool) (m n : ℕ) (c : Cell) : Finset Cell :=
  reachAux g adj m n (m * n) {c}

/-- The labelled image: components in order of first scan-order encounter;
component `i` of the list carries label `i+1`, and the label count `N` is
the list length. -/
def components (g : Cell → Bool) (adj : Cell → Cell → Bool) (m n : ℕ) : List (Finset Cell) :=
  (cellsList m n).foldl
    (fun found c =>
      if g c = true ∧ ∀ C ∈ found, c ∉ C then found ++ [reach g adj m n c] else found)
    []

/-- The label count `N` returned by `spim.label` (second component). -/
def labelCount (adj : Cell → Cell → Bool) (m n : ℕ) (g : Cell → Bool) : ℕ :=
  (components (restrict false m n g) adj m n).length

/-! ## Slices and bounding boxes -/


/-- A rectangular slice (half-open index ranges on both axes), as returned
by `scipy.ndimage.find_objects`. -/
structure Slc where
  rlo : ℤ
  rhi : ℤ
  clo : ℤ
  chi : ℤ
  deriving DecidableEq

/-- Membership of a cell in a slice. -/
def inSlc (s : Slc) (p : Cell) : Prop :=
  s.rlo ≤ p.1 ∧ p.1 < s.rhi ∧ s.clo ≤ p.2 ∧ p.2 < s.chi

instance (s : Slc) (p : Cell) : Decidable (inSlc s p) := by
  unfold inSlc; infer_instance

/-- The cells of a slice, row-major. -/
def slcCells (s : Slc) : List Cell :=
  (rangeZ s.rlo s.rhi).flatMap (fun i => (rangeZ s.clo s.chi).map (fun j => (i, j)))

/-- The cells of a slice as a finite set. -/
def slcFS (s : Slc) : Finset Cell := (slcCells s).toFinset

/-- Minimum of an integer list with a junk default for the empty list. -/
def lminZ (d : ℤ) : List ℤ → ℤ
  | [] => d
  | a :: t => t.foldl min a

/-- Maximum of an integer list with a junk default for the empty list. -/
def lmaxZ (d : ℤ) : List ℤ → ℤ
  | [] => d
  | a :: t => t.foldl max a

/-- `scipy.ndimage.find_objects`: the bounding slice of a component of the
`m × n` labelled image (the minimal slice containing all its cells). -/
def bbox (m n : ℕ) (C : Finset Cell) : Slc :=
  let l := (cellsList m n).filter (fun c => decide (c ∈ C))
  { rlo := lminZ 0 (l.map Prod.fst)
    rhi := lmaxZ 0 (l.map Prod.fst) + 1
    clo := lminZ 0 (l.map Prod.snd)
    chi := lmaxZ 0 (l.map Prod.snd) + 1 }

/-- Modelled from the spec: `extend_slice` (imported from `porespy.tools`,
whose source is not part of this repository) enlarges a bounding slice by a
margin of `pad` voxels on every side, clamped to the image shape — the
"locally cropped sub-volume padded by a margin of 10 voxels" of the
specification. -/
def extendSlice (s : Slc) (pad : ℤ) (m n : ℕ) : Slc :=
  { rlo := max 0 (s.rlo - pad)
    rhi := min (m : ℤ) (s.rhi + pad)
    clo := max 0 (s.clo - pad)
    chi := min (n : ℤ) (s.chi + pad) }

/-! ## Saddle-point trimmer (`trim_saddle_points`) -/


/-- The nine offsets of the full-connectivity structuring element
`cube(3)`/`square(3)`. -/
def offs9 : List Cell :=
  [(-1, -1), (-1, 0), (-1, 1), (0, -1), (0, 0), (0, 1), (1, -1), (1, 0), (1, 1)]

/-- `spim.binary_dilation(input, structure=cube(3))` on the sub-volume `s`
(border value false, output clipped to the sub-volume). -/
def dilate (s : Slc) (pd : Finset Cell) : Finset Cell :=
  (slcFS s).filter (fun q => ∃ o ∈ offs9, ((q.1 + o.1, q.2 + o.2) : Cell) ∈ pd)

/-- `sp.amax(dt_i * peaks_dil)`: the maximum over the sub-volume of the
distance field masked (multiplied) by the dilated set. -/
def amaxMasked (s : Slc) (dt : Cell → ℚ) (d : Finset Cell) : ℚ :=
  lmaxQ ((slcCells s).map (fun c => if c ∈ d then dt c else 0))

/-- `peaks_extended = (peaks_max == dt_i) * im_i` where
`peaks_max = peaks_dil * amax(dt_i * peaks_dil)` and `im_i = dt_i > 0`. -/
def extCode (s : Slc) (dt : Cell → ℚ) (d : Finset Cell) : Finset Cell :=
  (slcFS s).filter (fun c => (if c ∈ d then amaxMasked s dt d else 0) = dt c ∧ 0 < dt c)

/-- The per-cluster `while iters < max_iters` loop of `trim_saddle_points`:
dilate the working set, recompute the candidate set, keep the cluster
(true) if the candidates equal the original cluster `C`, drop it (false) if
they are disjoint from `C`, otherwise continue from the dilated set.  Fuel
exhaustion keeps the cluster (the loop ends, `peaks_i` is written back
unchanged, and only a warning is printed). -/
def resolveCode (s : Slc) (dt : Cell → ℚ) (C : Finset Cell) : Finset Cell → ℕ → Bool
  | _pd, 0 => true
  | pd, fuel + 1 =>
    let d := dilate s pd
    let ex := extCode s dt d
    if ex = C then true
    else if ex ∩ C = ∅ then false
    else resolveCode s dt C d fuel

/-- One iteration of the `for i in range(N)` loop: extend the cluster's
bounding slice by 10, resolve the cluster, and write back
`peaks[s] = peaks_i` (the cluster's voxels if kept, all-False if dropped) —
note the write covers the whole extended slice. -/
def saddleStep (m n : ℕ) (dtR : Cell → ℚ) (maxIters : ℕ)
    (acc : Cell → Bool) (C : Finset Cell) : Cell → Bool :=
  let s := extendSlice (bbox m n C) 10 m n
  let keep := resolveCode s dtR C C maxIters
  fun p => if inSlc s p then (keep && decide (p ∈ C)) else acc p

/-- `trim_saddle_points`: label the peaks (default face connectivity),
then process the clusters in label order. -/
def trim_saddle_points (m n : ℕ) (peaks : Cell → Bool) (dt : Cell → ℚ)
    (maxIters : ℕ) : Cell → Bool :=
  (components (restrict false m n peaks) adj4 m n).foldl
    (saddleStep m n (restrict 0 m n dt) maxIters)
    (restrict false m n peaks)

/-! ## The slice-overwrite defect of `trim_saddle_points`

`trim_saddle_points` writes each resolved cluster back with
`peaks[s] = peaks_i`, where `s` is the cluster's bounding slice extended by
10 voxels.  This write sets the WHOLE extended slice, erasing any voxels of
other clusters that fall inside it.  The 13×7 image below exhibits the
defect: cluster 1 is a U-shaped (face-connected) cluster whose two arm
tips are at rows 1 and whose bridge runs along row 2; cluster 2 is the
single voxel (12,0); both are genuine peaks of the distance field `dtU`
(value 5 on every peak voxel, 1 elsewhere).  Cluster 2's extended slice is
rows 2–12 × all columns, so writing it back erases the bridge of cluster 1
while both arm tips (row 1) survive, splitting cluster 1 in two. -/


/-- Peaks: a U-shaped cluster (arm tips (1,1),(1,5), bridge (2,1)–(2,5))
and the single voxel (12,0). -/
def peaksU : Cell → Bool := fun p =>
  decide (p = (1, 1) ∨ p = (2, 1) ∨ p = (2, 2) ∨ p = (2, 3) ∨ p = (2, 4) ∨ p = (2, 5) ∨
    p = (1, 5) ∨ p = (12, 0))

/-- Distance field: 5 on every peak voxel, 1 on the rest of the void. -/
def dtU : Cell → ℚ := fun p => if peaksU p then 5 else 1

/-- Cluster 1 (label 1): the U. -/
def uComp : Finset Cell := {(1, 1), (1, 5), (2, 1), (2, 2), (2, 3), (2, 4), (2, 5)}

/-- Cluster 2 (label 2): the isolated voxel. -/
def sComp : Finset Cell := {(12, 0)}

/-! ## Claim-verbatim and amended rules for the saddle trimmer

The claim's per-cluster iteration differs from the code in two ways.

First, the claim derives the per-iteration candidate set as "the void
voxels where the distance field equals the maximum distance value over the
dilated set" — with no restriction to the dilated set — while the code's
candidate set (`extCode`) is restricted to the dilated set, because
`peaks_max = peaks_dil * amax(...)` is zero outside it.

Second, the claim compares the candidate set against "the pre-dilation
working set" — the set that grows from iteration to iteration — while the
code compares against `peaks_i`, the cluster's ORIGINAL voxels, which
never change during the loop (`peaks_i` is only reassigned on the drop
branch, after which the loop exits).

`extClaim` below is the claim's candidate rule taken verbatim over the
sub-volume; `extAmended` is that rule restricted to the dilated set.
`resolveClaim` is the claim's iteration verbatim (unrestricted candidates,
compared against the pre-dilation working set); `resolvePdRule` fixes only
the candidate rule and keeps the claimed comparison against the
pre-dilation working set — it still diverges from the code, showing the
comparison target must be amended as well; `resolveAmended` fixes both
(restricted candidates, compared against the original cluster voxels) and
is proved to agree with the code. -/


/-- The maximum distance value over the dilated set (0 junk if empty). -/
def dilMax (s : Slc) (dt : Cell → ℚ) (d : Finset Cell) : ℚ :=
  lmaxQ (((slcCells s).filter (fun c => decide (c ∈ d))).map dt)

/-- The claim's candidate rule, verbatim: every void voxel of the
sub-volume whose distance value equals the maximum over the dilated set. -/
def extClaim (s : Slc) (dt : Cell → ℚ) (d : Finset Cell) : Finset Cell :=
  (slcFS s).filter (fun c => dt c = dilMax s dt d ∧ 0 < dt c)

/-- The amended candidate rule: the claim's rule restricted to voxels of
the dilated set. -/
def extAmended (s : Slc) (dt : Cell → ℚ) (d : Finset Cell) : Finset Cell :=
  d.filter (fun c => dt c = dilMax s dt d ∧ 0 < dt c)

/-- The claim's per-cluster loop, verbatim: unrestricted candidate rule,
compared against the pre-dilation working set `pd`. -/
def resolveClaim (s : Slc) (dt : Cell → ℚ) (C : Finset Cell) : Finset Cell → ℕ → Bool
  | _pd, 0 => true
  | pd, fuel + 1 =>
    let d := dilate s pd
    let ex := extClaim s dt d
    if ex = pd then true
    else if ex ∩ pd = ∅ then false
    else resolveClaim s dt C d fuel

/-- The claim's loop with only the candidate rule fixed: candidates
restricted to the dilated set, but still compared against the pre-dilation
working set `pd` as the claim says.  This rule still diverges from the
code (see `C1_counterexample`), which is why the amended claim must also
change the comparison target. -/
def resolvePdRule (s : Slc) (dt : Cell → ℚ) (C : Finset Cell) : Finset Cell → ℕ → Bool
  | _pd, 0 => true
  | pd, fuel + 1 =>
    let d := dilate s pd
    let ex := extAmended s dt d
    if ex = pd then true
    else if ex ∩ pd = ∅ then false
    else resolvePdRule s dt C d fuel

/-- The per-cluster loop of the amended claim: candidates restricted to
the dilated set, and — matching the code's `peaks_i`, which is never
modified while the loop runs — compared against the cluster's ORIGINAL
voxels `C`, not against the evolving pre-dilation working set. -/
def resolveAmended (s : Slc) (dt : Cell → ℚ) (C : Finset Cell) : Finset Cell → ℕ → Bool
  | _pd, 0 => true
  | pd, fuel + 1 =>
    let d := dilate s pd
    let ex := extAmended s dt d
    if ex = C then true
    else if ex ∩ C = ∅ then false
    else resolveAmended s dt C d fuel

/-- `saddleStep` with the claim's verbatim candidate rule. -/
def saddleStepClaim (m n : ℕ) (dtR : Cell → ℚ) (maxIters : ℕ)
    (acc : Cell → Bool) (C : Finset Cell) : Cell → Bool :=
  let s := extendSlice (bbox m n C) 10 m n
  let keep := resolveClaim s dtR C C maxIters
  fun p => if inSlc s p then (keep && decide (p ∈ C)) else acc p

/-- `saddleStep` with the dilated-restricted candidates but the claim's
comparison against the pre-dilation working set. -/
def saddleStepPdRule (m n : ℕ) (dtR : Cell → ℚ) (maxIters : ℕ)
    (acc : Cell → Bool) (C : Finset Cell) : Cell → Bool :=
  let s := extendSlice (bbox m n C) 10 m n
  let keep := resolvePdRule s dtR C C maxIters
  fun p => if inSlc s p then (keep && decide (p ∈ C)) else acc p

/-- `saddleStep` with the amended rule (restricted candidates, comparison
against the original cluster voxels). -/
def saddleStepAmended (m n : ℕ) (dtR : Cell → ℚ) (maxIters : ℕ)
    (acc : Cell → Bool) (C : Finset Cell) : Cell → Bool :=
  let s := extendSlice (bbox m n C) 10 m n
  let keep := resolveAmended s dtR C C maxIters
  fun p => if inSlc s p then (keep && decide (p ∈ C)) else acc p

/-- The saddle trimmer as described verbatim by the claim. -/
def trim_saddle_points_claim (m n : ℕ) (peaks : Cell → Bool) (dt : Cell → ℚ)
    (maxIters : ℕ) : Cell → Bool :=
  (components (restrict false m n peaks) adj4 m n).foldl
    (saddleStepClaim m n (restrict 0 m n dt) maxIters)
    (restrict false m n peaks)

/-- The saddle trimmer with only the candidate rule fixed (comparison still
against the pre-dilation working set, as the claim says). -/
def trim_saddle_points_pdrule (m n : ℕ) (peaks : Cell → Bool) (dt : Cell → ℚ)
    (maxIters : ℕ) : Cell → Bool :=
  (components (restrict false m n peaks) adj4 m n).foldl
    (saddleStepPdRule m n (restrict 0 m n dt) maxIters)
    (restrict false m n peaks)

/-- The saddle trimmer as described by the amended claim. -/
def trim_saddle_points_amended (m n : ℕ) (peaks : Cell → Bool) (dt : Cell → ℚ)
    (maxIters : ℕ) : Cell → Bool :=
  (components (restrict false m n peaks) adj4 m n).foldl
    (saddleStepAmended m n (restrict 0 m n dt) maxIters)
    (restrict false m n peaks)

/-- C1 counterexample input (candidate-rule divergence): a 3×8 image,
single peak cluster {(1,3)} on a distance field with a distant
equal-height voxel (1,5) and a higher voxel (1,6). -/
def pkC1 : Cell → Bool := fun p => decide (p = (1, 3))

/-- C1 counterexample distance field for the candidate-rule divergence. -/
def dtC1 : Cell → ℚ := fun p =>
  if p = (1, 3) then 5 else if p = (1, 5) then 5 else if p = (1, 6) then 9 else 1

/-- C1 counterexample input (comparison-target divergence): a 3×10 image,
single peak cluster {(1,1)}. -/
def pkP : Cell → Bool := fun p => decide (p = (1, 1))

/-- C1 counterexample distance field for the comparison-target divergence:
a 5-plateau covering the 3×3 corner block (so the first dilation of
{(1,1)} lies entirely inside the plateau) and a distant higher voxel at
(1,8). -/
def dtP : Cell → ℚ := fun p =>
  if p.2 ≤ 2 then 5 else if p = (1, 8) then 9 else 1

/-! ## Nearby-peak merger (`trim_nearby_peaks`)

`trim_nearby_peaks` labels the peaks with `cube(3)` (full connectivity),
computes each cluster's centre of mass truncated to integer voxel indices
(`spim.measurements.center_of_mass` of the labelled image weighted by the
constant label value equals the plain coordinate mean; `.astype(int)`
truncates, which is floor for the non-negative coordinates), queries a
`cKDTree` for each centre's nearest other centre, compares that Euclidean
distance with the distance-field value at the centre, builds the drop list,
deduplicates it (`sp.unique`), zeroes each dropped cluster's bounding slice
in the labelled image and returns `peaks > 0`.

The float comparison `dist_to_neighbor < dist_to_solid`, i.e.
`sqrt(d2) < ds`, is encoded exactly as `0 ≤ ds ∧ d2 < ds²`.  With one
single cluster the `k=2` query returns an infinite distance for the missing
neighbour, hence no hit: this is encoded by `tnNN` returning `none`.  Ties
in the nearest-neighbour query are broken towards the lowest index. -/


/-- The labelled peak clusters (`spim.label(peaks, structure=cube(3))`). -/
def tnComps (m n : ℕ) (peaks : Cell → Bool) : List (Finset Cell) :=
  components (restrict false m n peaks) adj8 m n

/-- Integer-truncated centre of mass of a cluster. -/
def centroid (m n : ℕ) (C : Finset Cell) : Cell :=
  let l := (cellsList m n).filter (fun c => decide (c ∈ C))
  (((l.map Prod.fst).foldl (· + ·) 0) / (l.length : ℤ),
   ((l.map Prod.snd).foldl (· + ·) 0) / (l.length : ℤ))

/-- The peak centres, in label order. -/
def tnCrds (m n : ℕ) (peaks : Cell → Bool) : List Cell :=
  (tnComps m n peaks).map (centroid m n)

/-- Squared Euclidean distance between two cells. -/
def d2 (a b : Cell) : ℤ := (a.1 - b.1) ^ 2 + (a.2 - b.2) ^ 2

/-- The nearest OTHER centre (`tree.query(x=crds, k=2)`, second column);
`none` when there is no other centre. -/
def tnNN (crds : List Cell) (i : ℕ) : Option ℕ :=
  ((List.range crds.length).filter (fun j => decide (j ≠ i))).foldl
    (fun best j =>
      match best with
      | none => some j
      | some b =>
          if d2 (crds.getD i (0, 0)) (crds.getD j (0, 0)) <
              d2 (crds.getD i (0, 0)) (crds.getD b (0, 0)) then some j else best)
    none

/-- `dist_to_solid`: the distance-field value at a peak's centre. -/
def tnDs (m n : ℕ) (dt : Cell → ℚ) (crds : List Cell) (i : ℕ) : ℚ :=
  restrict 0 m n dt (crds.getD i (0, 0))

/-- Whether peak `i` is a "hit": its nearest-neighbour distance is strictly
below its distance to solid (`sqrt(d2) < ds` encoded as `0 ≤ ds ∧ d2 < ds²`). -/
def tnHit (m n : ℕ) (dt : Cell → ℚ) (crds : List Cell) (i : ℕ) : Bool :=
  match tnNN crds i with
  | none => false
  | some j =>
      decide (0 ≤ tnDs m n dt crds i) &&
        decide (((d2 (crds.getD i (0, 0)) (crds.getD j (0, 0)) : ℤ) : ℚ) <
          tnDs m n dt crds i ^ 2)

/-- `hits = sp.where(dist_to_neighbor < dist_to_solid)[0]`. -/
def tnHits (m n : ℕ) (dt : Cell → ℚ) (crds : List Cell) : List ℕ :=
  (List.range crds.length).filter (tnHit m n dt crds)

/-- The body of the drop loop: drop the member of the pair with the
smaller distance to solid (on ties, the neighbour). -/
def tnPick (m n : ℕ) (dt : Cell → ℚ) (crds : List Cell) (i : ℕ) : ℕ :=
  if tnDs m n dt crds i < tnDs m n dt crds ((tnNN crds i).getD i) then i
  else (tnNN crds i).getD i

/-- `drop_peaks = sp.unique(drop_peaks)` (membership is all that matters
downstream). -/
def tnDrops (m n : ℕ) (dt : Cell → ℚ) (crds : List Cell) : List ℕ :=
  ((tnHits m n dt crds).map (tnPick m n dt crds)).dedup

/-- The output image on the success path: `peaks[slices[s]] = 0` for each
dropped label, then `peaks > 0`. -/
def tnOut (m n : ℕ) (peaks : Cell → Bool) (dt : Cell → ℚ) : Cell → Bool := fun p =>
  decide (∃ C ∈ tnComps m n peaks, p ∈ C) &&
    !(decide (∃ k ∈ tnDrops m n dt (tnCrds m n peaks),
        inSlc (bbox m n ((tnComps m n peaks).getD k ∅)) p))

/-- `trim_nearby_peaks`.  With zero labelled clusters the source crashes:
`sp.vstack` of an empty centre list raises `ValueError` ("need at least one
array to concatenate"); this is the error path. -/
def trim_nearby_peaks (m n : ℕ) (peaks : Cell → Bool) (dt : Cell → ℚ) :
    Except String (Cell → Bool) :=
  if tnComps m n peaks = [] then
    Except.error "need at least one array to concatenate"
  else
    Except.ok (tnOut m n peaks dt)

/-- C2 counterexample peaks: three single-voxel clusters on a 1×8 row at
columns 0, 4, 7. -/
def pk2 : Cell → Bool := fun p => decide (p = (0, 0) ∨ p = (0, 4) ∨ p = (0, 7))

/-- C2 counterexample distance field: distances to solid 5, 6, 7 at the
three peaks. -/
def dt2 : Cell → ℚ := fun p =>
  if p = (0, 0) then 5 else if p = (0, 4) then 6 else if p = (0, 7) then 7 else 1

/-- C2 witness peaks for the two-cluster case: two single-voxel clusters. -/
def pk2b : Cell → Bool := fun p => decide (p = (0, 0) ∨ p = (0, 4))

/-- C2 witness distance field for the two-cluster case. -/
def dt2b : Cell → ℚ := fun p => if p = (0, 0) then 5 else if p = (0, 4) then 6 else 1

/-! ## SNOW orchestration (`snow_partitioning`) -/


/-- The `return_all=True` bundle of `snow_partitioning` (named tuple with
fields `im`, `dt`, `peaks`, `regions`). -/
structure SnowResult where
  im : Cell → Bool
  dt : Cell → ℚ
  peaks : Cell → ℕ
  regions : Cell → ℕ

/-- The integer label image corresponding to an ordered component list. -/
def labelAt (comps : List (Finset Cell)) : Cell → ℕ := fun p =>
  match comps.findIdx? (fun C => decide (p ∈ C)) with
  | some i => i + 1
  | none => 0

/-- The `if dt is None` block: use the supplied distance transform or
delegate to the external Euclidean distance transform. -/
def snowDt0 (edtFn : (Cell → Bool) → Cell → ℚ) (im : Cell → Bool)
    (dtArg : Option (Cell → ℚ)) : Cell → ℚ :=
  match dtArg with
  | some d => d
  | none => edtFn im

/-- The `if sigma > 0` block: rebind `dt` to the blurred field. -/
def snowDt1 (blurFn : ℚ → (Cell → ℚ) → Cell → ℚ) (sigma : ℚ)
    (dt0 : Cell → ℚ) : Cell → ℚ :=
  if 0 < sigma then blurFn sigma dt0 else dt0

/-- `snow_partitioning` with `return_all=True`, instantiated for a boolean
input image.  The external primitives the source delegates to are
parameters: `edtFn` (the `scipy.ndimage.distance_transform_edt` block,
including its degenerate-dimension squeeze/expand handling), `blurFn`
(`scipy.ndimage.gaussian_filter`), `wsFn` (`skimage.morphology.watershed`,
applied to the negated distance field, the labelled markers and the
optional solid mask) and `randFn` (`porespy.tools.randomize_colors`).
Statement for statement: `tup.dt` captures the distance field BEFORE the
optional Gaussian blur rebinds the local name `dt`; the peaks are found on
the blurred field, saddle-trimmed with `max_iters=500`, nearby-trimmed
(which may raise), labelled with the default connectivity, and the
watershed floods `-dt` from the labelled markers. -/
def snow_partitioning (m n : ℕ)
    (edtFn : (Cell → Bool) → Cell → ℚ)
    (blurFn : ℚ → (Cell → ℚ) → Cell → ℚ)
    (wsFn : (Cell → ℚ) → (Cell → ℕ) → Option (Cell → Bool) → Cell → ℕ)
    (randFn : (Cell → ℕ) → Cell → ℕ)
    (im : Cell → Bool) (dtArg : Option (Cell → ℚ)) (rmax : ℕ) (sigma : ℚ)
    (mask randomize : Bool) : Except String SnowResult :=
  let dt0 := snowDt0 edtFn im dtArg
  let dt1 := snowDt1 blurFn sigma dt0
  let pk1 := find_peaks m n dt1 rmax
  let pk2 := trim_saddle_points m n pk1 dt1 500
  match trim_nearby_peaks m n pk2 dt1 with
  | Except.error e => Except.error e
  | Except.ok pk3 =>
      let comps := components (restrict false m n pk3) adj4 m n
      let pkL := labelAt comps
      let maskSolid := if mask then some im else none
      let regions := wsFn (fun p => -(dt1 p)) pkL maskSolid
      Except.ok ⟨im, dt0, pkL, if randomize then randFn regions else regions⟩

/-- Whether the pipeline succeeded. -/
def exOk (e : Except String SnowResult) : Bool :=
  match e with
  | Except.ok _ => true
  | Except.error _ => false

/-- The `dt` field of the returned bundle (junk on the error path). -/
def exDt (e : Except String SnowResult) : Cell → ℚ :=
  match e with
  | Except.ok b => b.dt
  | Except.error _ => fun _ => 0

end PoreSpy

namespace PoreSpy

theorem mem_rangeZ {a b x : ℤ} : x ∈ rangeZ a b ↔ a ≤ x ∧ x < b := by
  unfold rangeZ
  simp only [List.mem_map, List.mem_range]
  constructor
  · rintro ⟨k, hk, rfl⟩; refine ⟨?_, ?_⟩ <;> omega
  · rintro ⟨h1, h2⟩; exact ⟨(x - a).toNat, by omega, by omega⟩

theorem mem_cellsList {m n : ℕ} {p : Cell} : p ∈ cellsList m n ↔ inBnd m n p := by
  obtain ⟨i, j⟩ := p
  unfold cellsList inBnd
  simp only [List.mem_flatMap, List.mem_map, Prod.mk.injEq]
  constructor
  · rintro ⟨a, ha, b, hb, rfl, rfl⟩
    rw [mem_rangeZ] at ha; rw [mem_rangeZ] at hb
    exact ⟨ha.1, ha.2, hb.1, hb.2⟩
  · rintro ⟨h1, h2, h3, h4⟩
    exact ⟨i, mem_rangeZ.2 ⟨h1, h2⟩, j, mem_rangeZ.2 ⟨h3, h4⟩, rfl, rfl⟩

theorem allCells_iff {m n : ℕ} {f : Cell → Bool} :
    allCells m n f = true ↔ ∀ p : Cell, inBnd m n p → f p = true := by
  unfold allCells
  rw [List.all_eq_true]
  constructor
  · intro h p hp; exact h p (mem_cellsList.2 hp)
  · intro h p hp; exact h p (mem_cellsList.1 hp)

theorem restrict_eq_of_gridsEqOn [DecidableEq α] {m n : ℕ} {g h : Cell → α} (d : α)
    (he : gridsEqOn m n g h = true) : restrict d m n g = restrict d m n h := by
  funext p
  unfold restrict
  by_cases hp : inBnd m n p
  · rw [if_pos hp, if_pos hp]
    exact of_decide_eq_true (allCells_iff.1 he p hp)
  · rw [if_neg hp, if_neg hp]

theorem foldl_max_le {v : ℚ} : ∀ (l : List ℚ) (a : ℚ), a ≤ v → (∀ x ∈ l, x ≤ v) → l.foldl max a ≤ v := by
  intro l
  induction l with
  | nil => intro a ha _; simpa using ha
  | cons b t ih =>
      intro a ha hl
      simp only [List.foldl_cons]
      exact ih (max a b) (max_le ha (hl b (by simp))) (fun x hx => hl x (by simp [hx]))

theorem le_foldl_max_seed : ∀ (l : List ℚ) (a : ℚ), a ≤ l.foldl max a := by
  intro l
  induction l with
  | nil => intro a; simp
  | cons b t ih =>
      intro a
      simp only [List.foldl_cons]
      exact le_trans (le_max_left a b) (ih (max a b))

theorem le_foldl_max_of_mem {x : ℚ} : ∀ (l : List ℚ) (a : ℚ), x ∈ l → x ≤ l.foldl max a := by
  intro l
  induction l with
  | nil => intro a hx; simp at hx
  | cons b t ih =>
      intro a hx
      simp only [List.foldl_cons]
      rcases List.mem_cons.1 hx with h | h
      · subst h
        exact le_trans (le_max_right a x) (le_foldl_max_seed t _)
      · exact ih (max a b) h

theorem le_lmaxQ_of_mem {x : ℚ} {l : List ℚ} (hx : x ∈ l) : x ≤ lmaxQ l := by
  cases l with
  | nil => simp at hx
  | cons a t =>
      unfold lmaxQ
      rcases List.mem_cons.1 hx with h | h
      · subst h; exact le_foldl_max_seed t x
      · exact le_foldl_max_of_mem t a h

theorem lmaxQ_le {l : List ℚ} {v : ℚ} (hne : l ≠ []) (h : ∀ x ∈ l, x ≤ v) : lmaxQ l ≤ v := by
  cases l with
  | nil => exact absurd rfl hne
  | cons a t =>
      unfold lmaxQ
      exact foldl_max_le t a (h a (by simp)) (fun x hx => h x (by simp [hx]))

theorem reflIdx_eq_self {len : ℕ} {i : ℤ} (h0 : 0 ≤ i) (h1 : i < (len : ℤ)) :
    reflIdx len i = i := by
  unfold reflIdx
  have hmod : i % (2 * (len : ℤ)) = i := Int.emod_eq_of_lt h0 (by omega)
  simp only [hmod]
  exact if_pos h1

theorem center_mem_diskOffsets (r : ℕ) : ((0, 0) : Cell) ∈ diskOffsets r := by
  unfold diskOffsets
  simp only [List.mem_flatMap, List.mem_map, List.mem_filter]
  refine ⟨0, mem_rangeZ.2 ⟨by omega, by omega⟩, 0, ⟨mem_rangeZ.2 ⟨by omega, by omega⟩, ?_⟩, rfl⟩
  exact decide_eq_true (by positivity)

/-! ## Lemmas about components, bounding boxes and slices -/


theorem mem_grow {g : Cell → Bool} {adj : Cell → Cell → Bool} {m n : ℕ}
    {acc : Finset Cell} {x : Cell} (hx : x ∈ grow g adj m n acc) :
    x ∈ acc ∨ (g x = true ∧ inBnd m n x) := by
  unfold grow at hx
  rcases Finset.mem_union.1 hx with h | h
  · exact .inl h
  · obtain ⟨hcell, hp⟩ := Finset.mem_filter.1 h
    exact .inr ⟨hp.1, mem_cellsList.1 (List.mem_toFinset.1 hcell)⟩

theorem subset_grow {g : Cell → Bool} {adj : Cell → Cell → Bool} {m n : ℕ}
    {acc : Finset Cell} : acc ⊆ grow g adj m n acc :=
  Finset.subset_union_left

theorem mem_reachAux {g : Cell → Bool} {adj : Cell → Cell → Bool} {m n : ℕ} {x : Cell} :
    ∀ (fuel : ℕ) (acc : Finset Cell), x ∈ reachAux g adj m n fuel acc →
      x ∈ acc ∨ (g x = true ∧ inBnd m n x) := by
  intro fuel
  induction fuel with
  | zero => intro acc h; exact .inl h
  | succ k ih =>
      intro acc h
      unfold reachAux at h
      by_cases he : grow g adj m n acc = acc
      · rw [if_pos he] at h; exact .inl h
      · rw [if_neg he] at h
        rcases ih _ h with h2 | h2
        · exact mem_grow h2
        · exact .inr h2

theorem subset_reachAux {g : Cell → Bool} {adj : Cell → Cell → Bool} {m n : ℕ} :
    ∀ (fuel : ℕ) (acc : Finset Cell), acc ⊆ reachAux g adj m n fuel acc := by
  intro fuel
  induction fuel with
  | zero => intro acc; exact Finset.Subset.refl acc
  | succ k ih =>
      intro acc
      unfold reachAux
      by_cases he : grow g adj m n acc = acc
      · rw [if_pos he]
      · rw [if_neg he]
        exact Finset.Subset.trans subset_grow (ih _)

theorem mem_reach {g : Cell → Bool} {adj : Cell → Cell → Bool} {m n : ℕ} {c x : Cell}
    (h : x ∈ reach g adj m n c) : x = c ∨ (g x = true ∧ inBnd m n x) := by
  rcases mem_reachAux _ _ h with h2 | h2
  · exact .inl (Finset.mem_singleton.1 h2)
  · exact .inr h2

theorem self_mem_reach {g : Cell → Bool} {adj : Cell → Cell → Bool} {m n : ℕ} {c : Cell} :
    c ∈ reach g adj m n c :=
  subset_reachAux _ _ (Finset.mem_singleton_self c)

theorem components_inv {g : Cell → Bool} {adj : Cell → Cell → Bool} {m n : ℕ} :
    ∀ C ∈ components g adj m n,
      (∀ x ∈ C, g x = true ∧ inBnd m n x) ∧ C.Nonempty := by
  unfold components
  suffices h : ∀ (l : List Cell), (∀ c ∈ l, inBnd m n c) →
      ∀ (acc : List (Finset Cell)),
      (∀ D ∈ acc, (∀ y ∈ D, g y = true ∧ inBnd m n y) ∧ D.Nonempty) →
      ∀ C ∈ l.foldl
        (fun found c =>
          if g c = true ∧ ∀ C ∈ found, c ∉ C then found ++ [reach g adj m n c] else found)
        acc,
      (∀ x ∈ C, g x = true ∧ inBnd m n x) ∧ C.Nonempty by
    exact h (cellsList m n) (fun c hc => mem_cellsList.1 hc) [] (by simp)
  intro l
  induction l with
  | nil =>
      intro _ acc hacc C hC
      simpa using hacc C (by simpa using hC)
  | cons c t ih =>
      intro hl acc hacc C hC
      simp only [List.foldl_cons] at hC
      refine ih (fun d hd => hl d (List.mem_cons_of_mem _ hd)) _ ?_ C hC
      intro D hD
      by_cases hcond : (g c = true ∧ ∀ E ∈ acc, c ∉ E)
      · rw [if_pos hcond] at hD
        rcases List.mem_append.1 hD with h2 | h2
        · exact hacc D h2
        · have hDr : D = reach g adj m n c := by simpa using h2
          subst hDr
          refine ⟨?_, ⟨c, self_mem_reach⟩⟩
          intro y hy
          rcases mem_reach hy with rfl | h3
          · exact ⟨hcond.1, hl y (List.mem_cons_self _ _)⟩
          · exact h3
      · rw [if_neg hcond] at hD
        exact hacc D hD

theorem mem_of_mem_components {g : Cell → Bool} {adj : Cell → Cell → Bool} {m n : ℕ}
    {C : Finset Cell} {x : Cell} (hC : C ∈ components g adj m n) (hx : x ∈ C) :
    g x = true ∧ inBnd m n x :=
  (components_inv C hC).1 x hx

theorem nonempty_of_mem_components {g : Cell → Bool} {adj : Cell → Cell → Bool} {m n : ℕ}
    {C : Finset Cell} (hC : C ∈ components g adj m n) : C.Nonempty :=
  (components_inv C hC).2

theorem components_eq_nil {g : Cell → Bool} {adj : Cell → Cell → Bool} {m n : ℕ}
    (h : ∀ c, inBnd m n c → g c = false) : components g adj m n = [] := by
  unfold components
  suffices h2 : ∀ (l : List Cell), (∀ c ∈ l, g c = false) →
      ∀ (acc : List (Finset Cell)), l.foldl
        (fun found c =>
          if g c = true ∧ ∀ C ∈ found, c ∉ C then found ++ [reach g adj m n c] else found)
        acc = acc by
    exact h2 (cellsList m n) (fun c hc => h c (mem_cellsList.1 hc)) []
  intro l
  induction l with
  | nil => intro _ acc; rfl
  | cons c t ih =>
      intro hl acc
      simp only [List.foldl_cons]
      rw [if_neg (by simp [hl c (List.mem_cons_self _ _)])]
      exact ih (fun d hd => hl d (List.mem_cons_of_mem _ hd)) acc

theorem foldl_min_le_seed {α : Type} [LinearOrder α] :
    ∀ (l : List α) (a : α), l.foldl min a ≤ a := by
  intro l
  induction l with
  | nil => intro a; simp
  | cons b t ih =>
      intro a
      simp only [List.foldl_cons]
      exact le_trans (ih (min a b)) (min_le_left a b)

theorem foldl_min_le_of_mem {α : Type} [LinearOrder α] {x : α} :
    ∀ (l : List α) (a : α), x ∈ l → l.foldl min a ≤ x := by
  intro l
  induction l with
  | nil => intro a hx; simp at hx
  | cons b t ih =>
      intro a hx
      simp only [List.foldl_cons]
      rcases List.mem_cons.1 hx with h | h
      · subst h
        exact le_trans (foldl_min_le_seed t _) (min_le_right a x)
      · exact ih (min a b) h

theorem le_foldl_max_seedZ {α : Type} [LinearOrder α] :
    ∀ (l : List α) (a : α), a ≤ l.foldl max a := by
  intro l
  induction l with
  | nil => intro a; simp
  | cons b t ih =>
      intro a
      simp only [List.foldl_cons]
      exact le_trans (le_max_left a b) (ih (max a b))

theorem le_foldl_max_of_memZ {α : Type} [LinearOrder α] {x : α} :
    ∀ (l : List α) (a : α), x ∈ l → x ≤ l.foldl max a := by
  intro l
  induction l with
  | nil => intro a hx; simp at hx
  | cons b t ih =>
      intro a hx
      simp only [List.foldl_cons]
      rcases List.mem_cons.1 hx with h | h
      · subst h
        exact le_trans (le_max_right a x) (le_foldl_max_seedZ t _)
      · exact ih (max a b) h

theorem lminZ_le_of_mem {x : ℤ} {l : List ℤ} (d : ℤ) (h : x ∈ l) : lminZ d l ≤ x := by
  cases l with
  | nil => simp at h
  | cons a t =>
      unfold lminZ
      rcases List.mem_cons.1 h with h2 | h2
      · subst h2; exact foldl_min_le_seed t x
      · exact foldl_min_le_of_mem t a h2

theorem le_lmaxZ_of_mem {x : ℤ} {l : List ℤ} (d : ℤ) (h : x ∈ l) : x ≤ lmaxZ d l := by
  cases l with
  | nil => simp at h
  | cons a t =>
      unfold lmaxZ
      rcases List.mem_cons.1 h with h2 | h2
      · subst h2; exact le_foldl_max_seedZ t x
      · exact le_foldl_max_of_memZ t a h2

theorem mem_bbox {m n : ℕ} {C : Finset Cell} {x : Cell}
    (hb : inBnd m n x) (hx : x ∈ C) : inSlc (bbox m n C) x := by
  have hmem : x ∈ (cellsList m n).filter (fun c => decide (c ∈ C)) :=
    List.mem_filter.2 ⟨mem_cellsList.2 hb, by simpa⟩
  have h1 := lminZ_le_of_mem 0 (List.mem_map_of_mem Prod.fst hmem)
  have h2 := le_lmaxZ_of_mem 0 (List.mem_map_of_mem Prod.fst hmem)
  have h3 := lminZ_le_of_mem 0 (List.mem_map_of_mem Prod.snd hmem)
  have h4 := le_lmaxZ_of_mem 0 (List.mem_map_of_mem Prod.snd hmem)
  simp only [bbox, inSlc]
  exact ⟨h1, by omega, h3, by omega⟩

theorem inSlc_extendSlice {s : Slc} {pad : ℤ} {m n : ℕ} {x : Cell}
    (hpad : 0 ≤ pad) (hs : inSlc s x) (hb : inBnd m n x) :
    inSlc (extendSlice s pad m n) x := by
  obtain ⟨h1, h2, h3, h4⟩ := hs
  obtain ⟨b1, b2, b3, b4⟩ := hb
  refine ⟨max_le b1 (by omega), lt_min b2 (by omega), max_le b3 (by omega), lt_min b4 (by omega)⟩

/-- Frame lemma for the `for i in range(N)` fold of `trim_saddle_points`:
any cell set true by the fold was true in (some cluster of) the input. -/
theorem saddleFold_subset {m n : ℕ} {dtR : Cell → ℚ} {it : ℕ} {P : Cell → Prop} :
    ∀ (l : List (Finset Cell)), (∀ C ∈ l, ∀ x ∈ C, P x) →
    ∀ (acc : Cell → Bool), (∀ p, acc p = true → P p) →
    ∀ p, (l.foldl (saddleStep m n dtR it) acc) p = true → P p := by
  intro l
  induction l with
  | nil =>
      intro _ acc hacc p hp
      exact hacc p (by simpa using hp)
  | cons C t ih =>
      intro hl acc hacc p hp
      simp only [List.foldl_cons] at hp
      refine ih (fun D hD => hl D (List.mem_cons_of_mem _ hD)) _ ?_ p hp
      intro q hq
      simp only [saddleStep] at hq
      by_cases hin : inSlc (extendSlice (bbox m n C) 10 m n) q
      · rw [if_pos hin] at hq
        have : q ∈ C := of_decide_eq_true (Bool.and_elim_right hq)
        exact hl C (List.mem_cons_self _ _) q this
      · rw [if_neg hin] at hq
        exact hacc q hq

theorem compsU_eq :
    components (restrict false 13 7 peaksU) adj4 13 7 = [uComp, sComp] := by
  with_unfolding_all decide

theorem keepU_eq :
    resolveCode (extendSlice (bbox 13 7 uComp) 10 13 7) (restrict 0 13 7 dtU)
      uComp uComp 500 = true := by
  with_unfolding_all decide

theorem keepS_eq :
    resolveCode (extendSlice (bbox 13 7 sComp) 10 13 7) (restrict 0 13 7 dtU)
      sComp sComp 500 = true := by
  with_unfolding_all decide

theorem sliceU_eq : extendSlice (bbox 13 7 uComp) 10 13 7 = ⟨0, 13, 0, 7⟩ := by
  with_unfolding_all decide

theorem sliceS_eq : extendSlice (bbox 13 7 sComp) 10 13 7 = ⟨2, 13, 0, 7⟩ := by
  with_unfolding_all decide

/-- Closed form of `trim_saddle_points` on the U image: both clusters are
resolved as genuine peaks (kept) in their first iteration, and the two
slice writes land in label order. -/
theorem trimU_eq :
    trim_saddle_points 13 7 peaksU dtU 500 = fun p =>
      if inSlc ⟨2, 13, 0, 7⟩ p then decide (p ∈ sComp)
      else if inSlc ⟨0, 13, 0, 7⟩ p then decide (p ∈ uComp)
      else restrict false 13 7 peaksU p := by
  unfold trim_saddle_points
  rw [compsU_eq]
  simp only [List.foldl_cons, List.foldl_nil]
  simp only [saddleStep]
  rw [keepU_eq, keepS_eq, sliceU_eq, sliceS_eq]
  simp only [Bool.true_and]

theorem mem_slcCells {s : Slc} {p : Cell} : p ∈ slcCells s ↔ inSlc s p := by
  obtain ⟨i, j⟩ := p
  unfold slcCells inSlc
  simp only [List.mem_flatMap, List.mem_map, Prod.mk.injEq]
  constructor
  · rintro ⟨a, ha, b, hb, rfl, rfl⟩
    rw [mem_rangeZ] at ha; rw [mem_rangeZ] at hb
    exact ⟨ha.1, ha.2, hb.1, hb.2⟩
  · rintro ⟨h1, h2, h3, h4⟩
    exact ⟨i, mem_rangeZ.2 ⟨h1, h2⟩, j, mem_rangeZ.2 ⟨h3, h4⟩, rfl, rfl⟩

theorem mem_slcFS {s : Slc} {p : Cell} : p ∈ slcFS s ↔ inSlc s p := by
  unfold slcFS
  rw [List.mem_toFinset, mem_slcCells]

theorem lmaxQ_nonneg {l : List ℚ} (h : ∀ x ∈ l, 0 ≤ x) : 0 ≤ lmaxQ l := by
  cases l with
  | nil => exact le_refl 0
  | cons a t => exact le_trans (h a (by simp)) (le_lmaxQ_of_mem (by simp))

/-- With a non-negative distance field, `sp.amax(dt_i * peaks_dil)` is the
maximum distance value over the dilated set (the zeros contributed by
masked-out voxels never win). -/
theorem amaxMasked_eq_dilMax {s : Slc} {dt : Cell → ℚ} {d : Finset Cell}
    (hdt : ∀ c, 0 ≤ dt c) : amaxMasked s dt d = dilMax s dt d := by
  unfold amaxMasked dilMax
  have hnn1 : ∀ x ∈ (slcCells s).map (fun c => if c ∈ d then dt c else 0), 0 ≤ x := by
    intro x hx
    obtain ⟨c, -, rfl⟩ := List.mem_map.1 hx
    by_cases hc : c ∈ d
    · rw [if_pos hc]; exact hdt c
    · rw [if_neg hc]
  have hnn2 : ∀ x ∈ ((slcCells s).filter (fun c => decide (c ∈ d))).map dt, 0 ≤ x := by
    intro x hx
    obtain ⟨c, -, rfl⟩ := List.mem_map.1 hx
    exact hdt c
  cases hsc : slcCells s with
  | nil => simp [hsc]
  | cons c0 t0 =>
      rw [← hsc]
      refine le_antisymm ?_ ?_
      · refine lmaxQ_le (by rw [hsc]; simp) ?_
        intro x hx
        obtain ⟨c, hc, rfl⟩ := List.mem_map.1 hx
        by_cases hcd : c ∈ d
        · rw [if_pos hcd]
          refine le_lmaxQ_of_mem (List.mem_map.2 ⟨c, List.mem_filter.2 ⟨hc, by simpa⟩, rfl⟩)
        · rw [if_neg hcd]
          exact lmaxQ_nonneg hnn2
      · cases hL2 : ((slcCells s).filter (fun c => decide (c ∈ d))).map dt with
        | nil => exact lmaxQ_nonneg hnn1
        | cons y t =>
            rw [← hL2]
            refine lmaxQ_le (by rw [hL2]; simp) ?_
            intro x hx
            obtain ⟨c, hc, rfl⟩ := List.mem_map.1 hx
            have hcmem := (List.mem_filter.1 hc).1
            have hcd : c ∈ d := by
              have := (List.mem_filter.1 hc).2
              simpa using this
            have : dt c ∈ (slcCells s).map (fun c => if c ∈ d then dt c else 0) :=
              List.mem_map.2 ⟨c, hcmem, by rw [if_pos hcd]⟩
            exact le_lmaxQ_of_mem this

/-- With a non-negative distance field, the code's candidate set equals the
claim's candidate rule restricted to the dilated set: outside the dilated
set, `peaks_max` is 0, which can never equal a strictly positive distance
value. -/
theorem extCode_eq_extAmended {s : Slc} {dt : Cell → ℚ} {d : Finset Cell}
    (hdt : ∀ c, 0 ≤ dt c) (hd : d ⊆ slcFS s) :
    extCode s dt d = extAmended s dt d := by
  unfold extCode extAmended
  ext x
  simp only [Finset.mem_filter]
  constructor
  · rintro ⟨hxs, hcond, hpos⟩
    by_cases hxd : x ∈ d
    · rw [if_pos hxd] at hcond
      rw [amaxMasked_eq_dilMax hdt] at hcond
      exact ⟨hxd, hcond.symm, hpos⟩
    · rw [if_neg hxd] at hcond
      exact absurd hcond.symm (ne_of_gt hpos)
  · rintro ⟨hxd, heq, hpos⟩
    refine ⟨hd hxd, ?_, hpos⟩
    rw [if_pos hxd, amaxMasked_eq_dilMax hdt]
    exact heq.symm

theorem dilate_subset_slcFS {s : Slc} {pd : Finset Cell} : dilate s pd ⊆ slcFS s :=
  Finset.filter_subset _ _

theorem resolveCode_eq_resolveAmended {s : Slc} {dtR : Cell → ℚ} {C : Finset Cell}
    (hdt : ∀ c, 0 ≤ dtR c) :
    ∀ (fuel : ℕ) (pd : Finset Cell),
      resolveCode s dtR C pd fuel = resolveAmended s dtR C pd fuel := by
  intro fuel
  induction fuel with
  | zero => intro pd; rfl
  | succ k ih =>
      intro pd
      simp only [resolveCode, resolveAmended]
      rw [extCode_eq_extAmended hdt dilate_subset_slcFS, ih (dilate s pd)]

theorem saddleStep_eq_amended {m n : ℕ} {dtR : Cell → ℚ} {it : ℕ}
    (hdt : ∀ c, 0 ≤ dtR c) (acc : Cell → Bool) (C : Finset Cell) :
    saddleStep m n dtR it acc C = saddleStepAmended m n dtR it acc C := by
  simp only [saddleStep, saddleStepAmended]
  rw [resolveCode_eq_resolveAmended hdt]

theorem foldl_saddle_congr {m n : ℕ} {dtR : Cell → ℚ} {it : ℕ}
    (hdt : ∀ c, 0 ≤ dtR c) :
    ∀ (l : List (Finset Cell)) (acc : Cell → Bool),
      l.foldl (saddleStep m n dtR it) acc = l.foldl (saddleStepAmended m n dtR it) acc := by
  intro l
  induction l with
  | nil => intro acc; rfl
  | cons C t ih =>
      intro acc
      simp only [List.foldl_cons]
      rw [saddleStep_eq_amended hdt acc C]
      exact ih _

theorem restrict_false_true {m n : ℕ} {pk : Cell → Bool} {p : Cell}
    (h : restrict false m n pk p = true) : pk p = true := by
  unfold restrict at h
  by_cases hb : inBnd m n p
  · rwa [if_pos hb] at h
  · rw [if_neg hb] at h
    exact absurd h (by simp)

theorem trim_nearby_error_of_empty (m n : ℕ) (pk : Cell → Bool) (dt : Cell → ℚ)
    (hall : ∀ p, inBnd m n p → pk p = false) :
    trim_nearby_peaks m n pk dt = Except.error "need at least one array to concatenate" := by
  have hcomps : tnComps m n pk = [] := by
    unfold tnComps
    apply components_eq_nil
    intro c hc
    unfold restrict
    rw [if_pos hc]
    exact hall c hc
  unfold trim_nearby_peaks
  rw [if_pos hcomps]

end PoreSpy

/-- Claim C7 (corrected), counterexample: on `[0,1,1,1,0,1,1,0]`, mode
`'both'` returns `[0,1,2,1,0,1,1,0]`, not `[0,1,1,1,0,1,1,0]` as the claim
states (the claim's expected vector is not even the pointwise minimum of the
two directional transforms: the centre voxel of the 3-run is 2 from either
boundary). -/
theorem C7_counterexample :
    PoreSpy.distance_transform_lin PoreSpy.dtlTestIm "both" = [0, 1, 2, 1, 0, 1, 1, 0] ∧
    PoreSpy.distance_transform_lin PoreSpy.dtlTestIm "both" ≠ [0, 1, 1, 1, 0, 1, 1, 0] := by
  constructor
  · rfl
  · decide

/-- Claim C7 (corrected), amended: `distance_transform_lin` applied to
`[0,1,1,1,0,1,1,0]` returns `[0,1,2,3,0,1,2,0]` in mode `'forward'` and
`[0,1,2,1,0,1,1,0]` in mode `'both'`. -/
theorem C7_amended :
    PoreSpy.distance_transform_lin PoreSpy.dtlTestIm "forward" = [0, 1, 2, 3, 0, 1, 2, 0] ∧
    PoreSpy.distance_transform_lin PoreSpy.dtlTestIm "both" = [0, 1, 2, 1, 0, 1, 1, 0] := by
  exact ⟨rfl, rfl⟩

/-- Claim C8 (corrected), counterexample: `distance_transform_lin` with the
unrecognized mode string `"banana"` does not raise; it computes the forward
result `[0,1,2,3,0,1,2,0]` (the source's `if/elif` chain has no error
branch: any unmatched mode falls into the `'forward'` arm). -/
theorem C8_counterexample :
    PoreSpy.distance_transform_lin PoreSpy.dtlTestIm "banana" = [0, 1, 2, 3, 0, 1, 2, 0] := by
  rfl

/-- Claim C8 (corrected), amended: `distance_transform_lin` never raises on
an unrecognized mode: every mode string other than `'backward'`, `'reverse'`
and `'both'` (in particular any unrecognized one) is computed exactly as
`'forward'`. -/
theorem C8_amended (im : List ℤ) (mode : String)
    (h1 : mode ≠ "backward") (h2 : mode ≠ "reverse") (h3 : mode ≠ "both") :
    PoreSpy.distance_transform_lin im mode = PoreSpy.distance_transform_lin im "forward" := by
  unfold PoreSpy.distance_transform_lin
  rw [if_neg (by simp [h1, h2]), if_neg h3, if_neg (by simp), if_neg (by simp)]

/-- Witness for `C8_amended` at the concrete mode `"banana"` and the spec's
test vector. -/
theorem C8_amended_witness :
    PoreSpy.distance_transform_lin PoreSpy.dtlTestIm "banana" =
      PoreSpy.distance_transform_lin PoreSpy.dtlTestIm "forward" :=
  C8_amended PoreSpy.dtlTestIm "banana" (by decide) (by decide) (by decide)

/-- Claim C3 (corrected), counterexample: the penalty added to solid voxels
is the constant 2, which is NOT strictly greater than every possible
distance value, and it masks genuine void maxima whose distance value is
below 2.  On a 3×7 strip whose middle row is void with distance 1
everywhere, the voxel (1,3) is a genuine void local maximum (its distance
value is maximal among all void voxels), yet `find_peaks` does not report
it: the perturbed solid neighbours have value 2 > 1, so the maximum filter
exceeds the distance value there. -/
theorem C3_counterexample :
    PoreSpy.find_peaks 3 7 PoreSpy.stripDt 4 (1, 3) = false ∧
    (0 < PoreSpy.restrict 0 3 7 PoreSpy.stripDt (1, 3)) ∧
    PoreSpy.allCells 3 7 (fun q =>
      !(decide (0 < PoreSpy.restrict 0 3 7 PoreSpy.stripDt q)) ||
        decide (PoreSpy.restrict 0 3 7 PoreSpy.stripDt q ≤
          PoreSpy.restrict 0 3 7 PoreSpy.stripDt (1, 3))) = true := by
  refine ⟨by with_unfolding_all decide, by with_unfolding_all decide, by with_unfolding_all decide⟩

/-- Claim C3 (corrected), amended: the solid-voxel penalty is the fixed
constant 2 (not a value strictly greater than every possible distance).
Consequently (a) no voxel on the solid side (distance ≤ 0, in particular
every solid voxel) is ever reported as a peak, and (b) a genuine void local
maximum is guaranteed to be reported only under the additional condition
that its distance value is at least the penalty 2: if every voxel of its
(reflected) footprint neighbourhood has distance value at most its own,
and its own value is ≥ 2, then it is reported. -/
theorem C3_amended :
    (∀ (m n : ℕ) (dt : PoreSpy.Cell → ℚ) (rmax : ℕ) (p : PoreSpy.Cell),
        PoreSpy.find_peaks m n dt rmax p = true → 0 < PoreSpy.restrict 0 m n dt p) ∧
    (∀ (m n : ℕ) (dt : PoreSpy.Cell → ℚ) (rmax : ℕ) (p : PoreSpy.Cell),
        2 ≤ PoreSpy.restrict 0 m n dt p →
        (∀ o ∈ PoreSpy.diskOffsets rmax,
            PoreSpy.restrict 0 m n dt (PoreSpy.reflCell m n (p.1 + o.1, p.2 + o.2)) ≤
              PoreSpy.restrict 0 m n dt p) →
        PoreSpy.find_peaks m n dt rmax p = true) := by
  constructor
  · intro m n dt rmax p hp
    unfold PoreSpy.find_peaks at hp
    exact of_decide_eq_true (Bool.and_elim_right hp)
  · intro m n dt rmax p h2 hnb
    have hgp : 0 < PoreSpy.restrict 0 m n dt p := lt_of_lt_of_le (by norm_num) h2
    have hpb : PoreSpy.inBnd m n p := by
      by_contra hb
      have : PoreSpy.restrict 0 m n dt p = 0 := by
        unfold PoreSpy.restrict; exact if_neg hb
      rw [this] at h2; norm_num at h2
    have hrefl : PoreSpy.reflCell m n p = p := by
      obtain ⟨hb1, hb2, hb3, hb4⟩ := hpb
      unfold PoreSpy.reflCell
      exact Prod.ext (PoreSpy.reflIdx_eq_self hb1 hb2) (PoreSpy.reflIdx_eq_self hb3 hb4)
    -- every element of the filtered neighbourhood is bounded by the centre value
    have hub : ∀ x ∈ (PoreSpy.diskOffsets rmax).map
        (fun o => PoreSpy.pertF m n dt (PoreSpy.reflCell m n (p.1 + o.1, p.2 + o.2))),
        x ≤ PoreSpy.restrict 0 m n dt p := by
      intro x hx
      obtain ⟨o, ho, rfl⟩ := List.mem_map.1 hx
      unfold PoreSpy.pertF
      by_cases hq : 0 < PoreSpy.restrict 0 m n dt (PoreSpy.reflCell m n (p.1 + o.1, p.2 + o.2))
      · rw [if_pos hq, add_zero]; exact hnb o ho
      · rw [if_neg hq]
        have : PoreSpy.restrict 0 m n dt (PoreSpy.reflCell m n (p.1 + o.1, p.2 + o.2)) ≤ 0 :=
          le_of_not_lt hq
        linarith
    -- the centre itself is an element attaining the centre value
    have hmem : PoreSpy.restrict 0 m n dt p ∈ (PoreSpy.diskOffsets rmax).map
        (fun o => PoreSpy.pertF m n dt (PoreSpy.reflCell m n (p.1 + o.1, p.2 + o.2))) := by
      refine List.mem_map.2 ⟨(0, 0), PoreSpy.center_mem_diskOffsets rmax, ?_⟩
      show PoreSpy.pertF m n dt (PoreSpy.reflCell m n (p.1 + 0, p.2 + 0)) = _
      rw [add_zero, add_zero, Prod.mk.eta, hrefl]
      unfold PoreSpy.pertF
      rw [if_pos hgp, add_zero]
    have hmx : PoreSpy.maxFilt m n dt rmax p = PoreSpy.restrict 0 m n dt p := by
      unfold PoreSpy.maxFilt
      refine le_antisymm ?_ (PoreSpy.le_lmaxQ_of_mem hmem)
      exact PoreSpy.lmaxQ_le (List.ne_nil_of_mem hmem) hub
    unfold PoreSpy.find_peaks
    rw [hmx]
    simp [hgp]

/-- Witness for the hypotheses of `C3_amended`: a 3×3 image whose centre
voxel has distance 2 and dominates its `disk(1)` neighbourhood is reported
as a peak. -/
theorem C3_amended_witness :
    PoreSpy.find_peaks 3 3 (fun p => if p = (1, 1) then (2 : ℚ) else 0) 1 (1, 1) = true :=
  C3_amended.2 3 3 (fun p => if p = (1, 1) then (2 : ℚ) else 0) 1 (1, 1)
    (by with_unfolding_all decide) (by with_unfolding_all decide)

/-- Claim C4 (code_bug): processing of one peak cluster DOES write another
cluster's voxels.  On the U image, the arm tip (1,1) of cluster 1 is kept
(the cluster was resolved as a genuine peak, not removed), yet the bridge
voxel (2,1) of the SAME cluster is false in the output: it was erased by
the write-back of cluster 2's extended slice (`peaks[s] = peaks_i` writes
the whole padded slice).  The spec's frame property — every voxel of a
cluster the stage does not itself decide to remove is unchanged — fails,
and it fails against the code's own docstring, which promises only
whole-cluster removal. -/
theorem C4_code_bug :
    PoreSpy.trim_saddle_points 13 7 PoreSpy.peaksU PoreSpy.dtU 500 (1, 1) = true ∧
    PoreSpy.trim_saddle_points 13 7 PoreSpy.peaksU PoreSpy.dtU 500 (2, 1) = false ∧
    PoreSpy.peaksU (2, 1) = true ∧
    ∃ C ∈ PoreSpy.components (PoreSpy.restrict false 13 7 PoreSpy.peaksU) PoreSpy.adj4 13 7,
      (1, 1) ∈ C ∧ (2, 1) ∈ C := by
  refine ⟨?_, ?_, by decide, ?_⟩
  · rw [PoreSpy.trimU_eq]; with_unfolding_all decide
  · rw [PoreSpy.trimU_eq]; with_unfolding_all decide
  · rw [PoreSpy.compsU_eq]; with_unfolding_all decide

/-- Claim C5 (code_bug): the connected-component label count is NOT
monotonically non-increasing through `trim_saddle_points`: on the U image
the input has 2 components and the output has 3 (the U cluster is split in
two by cluster 2's slice write-back), contradicting both the claim and the
function's own docstring ("an image with fewer peaks than the input
image"). -/
theorem C5_code_bug :
    PoreSpy.labelCount PoreSpy.adj4 13 7
      (PoreSpy.trim_saddle_points 13 7 PoreSpy.peaksU PoreSpy.dtU 500) = 3 ∧
    PoreSpy.labelCount PoreSpy.adj4 13 7 PoreSpy.peaksU = 2 := by
  constructor
  · unfold PoreSpy.labelCount
    rw [PoreSpy.trimU_eq]
    with_unfolding_all decide
  · with_unfolding_all decide

/-- Claim C1 (corrected), counterexample, refuting both of the claim's
divergences from the code.

Candidate rule (first two conjuncts): on a 3×8 image with the single peak
cluster {(1,3)} and distance field `dtC1` (5 at (1,3) and (1,5), 9 at
(1,6), 1 elsewhere), the code keeps the cluster — its first-iteration
candidate set, being restricted to the dilated set, equals {(1,3)} — while
the claim's verbatim rule ("void voxels where the distance field equals
the maximum over the dilated set", unrestricted) also collects the distant
voxel (1,5), never matches, grows until the dilated set's maximum jumps to
9 at (1,6), and then drops the cluster.

Comparison target (last two conjuncts): even with the candidate set
restricted to the dilated set, comparing it against "the pre-dilation
working set" (the claim's words) is not what the code does — the code
compares against the cluster's original voxels `peaks_i`, which never
change during the loop.  On a 3×10 image with the single peak cluster
{(1,1)} and distance field `dtP` (a 5-plateau on columns 0–2 covering the
whole first dilation, 9 at (1,8), 1 elsewhere), the pre-dilation-working-
set rule keeps the cluster at its second iteration (the candidate set has
stabilised to the plateau, equalling the working set), while the code
keeps dilating — the candidates never equal the original single voxel —
until the dilated set reaches (1,8), the maximum jumps to 9 and the
cluster is dropped. -/
theorem C1_counterexample :
    PoreSpy.trim_saddle_points 3 8 PoreSpy.pkC1 PoreSpy.dtC1 10 (1, 3) = true ∧
    PoreSpy.trim_saddle_points_claim 3 8 PoreSpy.pkC1 PoreSpy.dtC1 10 (1, 3) = false ∧
    PoreSpy.trim_saddle_points 3 10 PoreSpy.pkP PoreSpy.dtP 10 (1, 1) = false ∧
    PoreSpy.trim_saddle_points_pdrule 3 10 PoreSpy.pkP PoreSpy.dtP 10 (1, 1) = true := by
  exact ⟨by with_unfolding_all decide, by with_unfolding_all decide,
    by with_unfolding_all decide, by with_unfolding_all decide⟩

/-- Claim C1 (corrected), amended in the two places the counterexample
forces: (i) the candidate set is restricted to the dilated voxel set —
"the candidate set of void voxels OF THE DILATED SET where the distance
field equals the maximum distance value over the dilated set" — and
(ii) the keep/drop comparisons are against the cluster's ORIGINAL voxels
(the code's `peaks_i`, unchanged while the loop runs), not against the
evolving pre-dilation working set.  So amended, the claim describes
`trim_saddle_points` exactly: for every peak image, every non-negative
distance field and every iteration bound, the code equals the amended
per-cluster keep/drop/continue iteration. -/
theorem C1_amended (m n : ℕ) (pk : PoreSpy.Cell → Bool) (dt : PoreSpy.Cell → ℚ) (it : ℕ)
    (hdt : PoreSpy.allCells m n (fun p => decide (0 ≤ dt p)) = true) :
    PoreSpy.trim_saddle_points m n pk dt it =
      PoreSpy.trim_saddle_points_amended m n pk dt it := by
  have hdtR : ∀ c, 0 ≤ PoreSpy.restrict 0 m n dt c := by
    intro c
    unfold PoreSpy.restrict
    split
    · exact of_decide_eq_true (PoreSpy.allCells_iff.1 hdt c ‹_›)
    · exact le_refl 0
  unfold PoreSpy.trim_saddle_points PoreSpy.trim_saddle_points_amended
  exact PoreSpy.foldl_saddle_congr hdtR _ _

/-- Witness for `C1_amended` at the concrete 3×8 counterexample input: its
distance field is non-negative, and the code and the amended description
agree on it as functions. -/
theorem C1_amended_witness :
    PoreSpy.trim_saddle_points 3 8 PoreSpy.pkC1 PoreSpy.dtC1 10 =
      PoreSpy.trim_saddle_points_amended 3 8 PoreSpy.pkC1 PoreSpy.dtC1 10 :=
  C1_amended 3 8 PoreSpy.pkC1 PoreSpy.dtC1 10 (by with_unfolding_all decide)

/-- Claim C2 (corrected), counterexample: peak 0 (centre (0,0), ds=5) has
nearest neighbour peak 1 (centre (0,4), ds=6) at distance 4 < 5, so the
pair (0,1) is a hit pair in which peak 1 has the LARGER distance-to-solid;
the claim says exactly peak 0 is marked for removal and peak 1 survives.
But peak 1's own nearest neighbour is peak 2 (distance 3 < 6, ds 7 > 6), so
peak 1 is also marked through its own pair and its voxel (0,4) is removed:
for the pair (0,1), both members are marked, and the member further from
the solid does not survive. -/
theorem C2_counterexample :
    PoreSpy.tnNN (PoreSpy.tnCrds 1 8 PoreSpy.pk2) 0 = some 1 ∧
    PoreSpy.tnHit 1 8 PoreSpy.dt2 (PoreSpy.tnCrds 1 8 PoreSpy.pk2) 0 = true ∧
    PoreSpy.tnDs 1 8 PoreSpy.dt2 (PoreSpy.tnCrds 1 8 PoreSpy.pk2) 0 <
      PoreSpy.tnDs 1 8 PoreSpy.dt2 (PoreSpy.tnCrds 1 8 PoreSpy.pk2) 1 ∧
    1 ∈ PoreSpy.tnDrops 1 8 PoreSpy.dt2 (PoreSpy.tnCrds 1 8 PoreSpy.pk2) ∧
    PoreSpy.tnOut 1 8 PoreSpy.pk2 PoreSpy.dt2 (0, 4) = false ∧
    PoreSpy.pk2 (0, 4) = true := by
  refine ⟨by with_unfolding_all decide, by with_unfolding_all decide,
    by with_unfolding_all decide, by with_unfolding_all decide,
    by with_unfolding_all decide, by decide⟩

/-- Claim C2 (corrected), amended: for every hit pair (a peak whose
nearest-other-centre distance is strictly below its own distance-to-solid),
the member of the pair with the strictly smaller distance-to-solid is
marked for removal — but the other member may ALSO be marked through its
own nearest-neighbour pair, so pairwise survival of the farther peak is
not guaranteed in general.  In the special case of exactly two peak
clusters with distinct distance-to-solid, each closer to the other than to
the solid, the drop list is exactly the peak with the smaller
distance-to-solid: its cluster is removed and every voxel of the other
cluster outside the removed cluster's bounding slice survives, so exactly
the peak with the larger distance-to-solid value survives. -/
theorem C2_amended :
    (∀ (m n : ℕ) (pk : PoreSpy.Cell → Bool) (dt : PoreSpy.Cell → ℚ) (i j : ℕ),
        PoreSpy.tnNN (PoreSpy.tnCrds m n pk) i = some j →
        PoreSpy.tnHit m n dt (PoreSpy.tnCrds m n pk) i = true →
        i < (PoreSpy.tnCrds m n pk).length →
        (PoreSpy.tnDs m n dt (PoreSpy.tnCrds m n pk) i <
            PoreSpy.tnDs m n dt (PoreSpy.tnCrds m n pk) j →
          i ∈ PoreSpy.tnDrops m n dt (PoreSpy.tnCrds m n pk)) ∧
        (PoreSpy.tnDs m n dt (PoreSpy.tnCrds m n pk) j <
            PoreSpy.tnDs m n dt (PoreSpy.tnCrds m n pk) i →
          j ∈ PoreSpy.tnDrops m n dt (PoreSpy.tnCrds m n pk))) ∧
    (∀ (m n : ℕ) (pk : PoreSpy.Cell → Bool) (dt : PoreSpy.Cell → ℚ) (C0 C1 : Finset PoreSpy.Cell),
        PoreSpy.tnComps m n pk = [C0, C1] →
        PoreSpy.tnHit m n dt (PoreSpy.tnCrds m n pk) 0 = true →
        PoreSpy.tnHit m n dt (PoreSpy.tnCrds m n pk) 1 = true →
        PoreSpy.tnDs m n dt (PoreSpy.tnCrds m n pk) 0 <
          PoreSpy.tnDs m n dt (PoreSpy.tnCrds m n pk) 1 →
        PoreSpy.tnDrops m n dt (PoreSpy.tnCrds m n pk) = [0] ∧
        (∀ p, p ∈ C1 → ¬ PoreSpy.inSlc (PoreSpy.bbox m n C0) p →
          PoreSpy.tnOut m n pk dt p = true) ∧
        (∀ p, PoreSpy.tnOut m n pk dt p = true → p ∈ C1)) := by
  constructor
  · intro m n pk dt i j hnn hhit hlen
    have hmem : i ∈ PoreSpy.tnHits m n dt (PoreSpy.tnCrds m n pk) :=
      List.mem_filter.2 ⟨List.mem_range.2 hlen, hhit⟩
    have hgd : (PoreSpy.tnNN (PoreSpy.tnCrds m n pk) i).getD i = j := by rw [hnn]; rfl
    constructor
    · intro hlt
      have hpick : PoreSpy.tnPick m n dt (PoreSpy.tnCrds m n pk) i = i := by
        unfold PoreSpy.tnPick
        rw [hgd]
        exact if_pos hlt
      have h2 := List.mem_map_of_mem (PoreSpy.tnPick m n dt (PoreSpy.tnCrds m n pk)) hmem
      rw [hpick] at h2
      exact List.mem_dedup.2 h2
    · intro hlt
      have hpick : PoreSpy.tnPick m n dt (PoreSpy.tnCrds m n pk) i = j := by
        unfold PoreSpy.tnPick
        rw [hgd]
        exact if_neg (not_lt.2 (le_of_lt hlt))
      have h2 := List.mem_map_of_mem (PoreSpy.tnPick m n dt (PoreSpy.tnCrds m n pk)) hmem
      rw [hpick] at h2
      exact List.mem_dedup.2 h2
  · intro m n pk dt C0 C1 hcomps h0 h1 hlt
    have hcrds : PoreSpy.tnCrds m n pk =
        [PoreSpy.centroid m n C0, PoreSpy.centroid m n C1] := by
      unfold PoreSpy.tnCrds
      rw [hcomps]
      rfl
    have hnn0 : PoreSpy.tnNN (PoreSpy.tnCrds m n pk) 0 = some 1 := by rw [hcrds]; rfl
    have hnn1 : PoreSpy.tnNN (PoreSpy.tnCrds m n pk) 1 = some 0 := by rw [hcrds]; rfl
    have hlen : (PoreSpy.tnCrds m n pk).length = 2 := by rw [hcrds]; rfl
    have hhits : PoreSpy.tnHits m n dt (PoreSpy.tnCrds m n pk) = [0, 1] := by
      unfold PoreSpy.tnHits
      rw [hlen, show List.range 2 = [0, 1] from rfl]
      simp only [List.filter_cons, List.filter_nil, h0, h1, if_true]
    have hgd0 : (PoreSpy.tnNN (PoreSpy.tnCrds m n pk) 0).getD 0 = 1 := by rw [hnn0]; rfl
    have hgd1 : (PoreSpy.tnNN (PoreSpy.tnCrds m n pk) 1).getD 1 = 0 := by rw [hnn1]; rfl
    have hpick0 : PoreSpy.tnPick m n dt (PoreSpy.tnCrds m n pk) 0 = 0 := by
      unfold PoreSpy.tnPick
      rw [hgd0]
      exact if_pos hlt
    have hpick1 : PoreSpy.tnPick m n dt (PoreSpy.tnCrds m n pk) 1 = 0 := by
      unfold PoreSpy.tnPick
      rw [hgd1]
      exact if_neg (not_lt.2 (le_of_lt hlt))
    have hdrops : PoreSpy.tnDrops m n dt (PoreSpy.tnCrds m n pk) = [0] := by
      unfold PoreSpy.tnDrops
      rw [hhits]
      simp only [List.map_cons, List.map_nil, hpick0, hpick1]
      rfl
    refine ⟨hdrops, ?_, ?_⟩
    · intro p hp hnb
      unfold PoreSpy.tnOut
      rw [hdrops, hcomps]
      have e1 : ∃ C ∈ [C0, C1], p ∈ C := ⟨C1, by simp, hp⟩
      have e2 : ¬ ∃ k ∈ [(0 : ℕ)], PoreSpy.inSlc (PoreSpy.bbox m n ([C0, C1].getD k ∅)) p := by
        rintro ⟨k, hk, hins⟩
        have hk0 : k = 0 := by simpa using hk
        subst hk0
        exact hnb (by simpa using hins)
      rw [decide_eq_true e1, decide_eq_false e2]
      rfl
    · intro p hout
      unfold PoreSpy.tnOut at hout
      rw [hdrops, hcomps] at hout
      rw [Bool.and_eq_true] at hout
      obtain ⟨hex, hnex⟩ := hout
      obtain ⟨C, hC, hp⟩ := of_decide_eq_true hex
      have hC2 : C = C0 ∨ C = C1 := by simpa using hC
      rcases hC2 with rfl | rfl
      · exfalso
        have hCmem : C ∈ PoreSpy.tnComps m n pk := by
          rw [hcomps]
          exact List.mem_cons_self _ _
        have hb : PoreSpy.inBnd m n p := (PoreSpy.mem_of_mem_components hCmem hp).2
        have e3 : ∃ k ∈ [(0 : ℕ)], PoreSpy.inSlc (PoreSpy.bbox m n ([C, C1].getD k ∅)) p :=
          ⟨0, by simp, by simpa using PoreSpy.mem_bbox hb hp⟩
        rw [decide_eq_true e3] at hnex
        simp at hnex
      · exact hp

/-- Witness for `C2_amended`: part one applied to the 1×8 three-peak image
(peak 0 is the smaller member of its hit pair and lands in the drop list);
part two applied to a 1×8 two-peak image (the surviving voxel of the
larger-ds cluster is kept). -/
theorem C2_amended_witness :
    0 ∈ PoreSpy.tnDrops 1 8 PoreSpy.dt2 (PoreSpy.tnCrds 1 8 PoreSpy.pk2) ∧
    PoreSpy.tnOut 1 8 PoreSpy.pk2b PoreSpy.dt2b (0, 4) = true :=
  ⟨(C2_amended.1 1 8 PoreSpy.pk2 PoreSpy.dt2 0 1 (by with_unfolding_all decide)
      (by with_unfolding_all decide) (by with_unfolding_all decide)).1
      (by with_unfolding_all decide),
   (C2_amended.2 1 8 PoreSpy.pk2b PoreSpy.dt2b {(0, 0)} {(0, 4)}
      (by with_unfolding_all decide) (by with_unfolding_all decide)
      (by with_unfolding_all decide) (by with_unfolding_all decide)).2.1 (0, 4)
      (by decide) (by with_unfolding_all decide)⟩

/-- Claim C6 (confirmed): the peak set only shrinks.  Every voxel true in
the output of `trim_saddle_points` was true in its input peak set (for any
distance field and iteration bound), and every voxel true in a successful
output of `trim_nearby_peaks` was true in its input peak set — so no voxel
removed by an earlier stage is ever reintroduced by a later one. -/
theorem C6_confirmed :
    (∀ (m n : ℕ) (pk : PoreSpy.Cell → Bool) (dt : PoreSpy.Cell → ℚ) (it : ℕ) (p : PoreSpy.Cell),
        PoreSpy.trim_saddle_points m n pk dt it p = true → pk p = true) ∧
    (∀ (m n : ℕ) (pk : PoreSpy.Cell → Bool) (dt : PoreSpy.Cell → ℚ)
        (out : PoreSpy.Cell → Bool) (p : PoreSpy.Cell),
        PoreSpy.trim_nearby_peaks m n pk dt = Except.ok out → out p = true → pk p = true) := by
  constructor
  · intro m n pk dt it p hp
    unfold PoreSpy.trim_saddle_points at hp
    refine @PoreSpy.saddleFold_subset m n (PoreSpy.restrict 0 m n dt) it
      (fun x => pk x = true) _ ?_ _ ?_ p hp
    · intro C hC x hx
      exact PoreSpy.restrict_false_true (PoreSpy.mem_of_mem_components hC hx).1
    · intro q hq
      exact PoreSpy.restrict_false_true hq
  · intro m n pk dt out p hok hp
    unfold PoreSpy.trim_nearby_peaks at hok
    by_cases hc : PoreSpy.tnComps m n pk = []
    · rw [if_pos hc] at hok
      exact Except.noConfusion hok
    · rw [if_neg hc] at hok
      have hout : out = PoreSpy.tnOut m n pk dt := (Except.ok.inj hok).symm
      subst hout
      unfold PoreSpy.tnOut at hp
      rw [Bool.and_eq_true] at hp
      obtain ⟨hex, -⟩ := hp
      obtain ⟨C, hC, hpC⟩ := of_decide_eq_true hex
      exact PoreSpy.restrict_false_true (PoreSpy.mem_of_mem_components hC hpC).1

/-- Witness for `C6_confirmed`: the saddle part applied to the 13×7 U image
at the surviving arm tip (1,1), and the nearby part applied to the 1×8
two-peak image at the surviving voxel (0,4). -/
theorem C6_confirmed_witness :
    PoreSpy.peaksU (1, 1) = true ∧ PoreSpy.pk2b (0, 4) = true :=
  ⟨C6_confirmed.1 13 7 PoreSpy.peaksU PoreSpy.dtU 500 (1, 1)
      (by rw [PoreSpy.trimU_eq]; with_unfolding_all decide),
   C6_confirmed.2 1 8 PoreSpy.pk2b PoreSpy.dt2b (PoreSpy.tnOut 1 8 PoreSpy.pk2b PoreSpy.dt2b) (0, 4)
      (by
        unfold PoreSpy.trim_nearby_peaks
        rw [if_neg (by with_unfolding_all decide : ¬PoreSpy.tnComps 1 8 PoreSpy.pk2b = [])])
      (by with_unfolding_all decide)⟩

/-- Claim C9 (confirmed): `trim_nearby_peaks` raises whenever its input
peak image has no True voxel (zero labelled clusters) — `sp.vstack` of the
empty centre list raises `ValueError` instead of returning the empty peak
set — and consequently `snow_partitioning` fails with an error, rather
than returning an empty labelling, whenever peak detection and saddle
trimming leave no peaks (for any external distance-transform, blur,
watershed and colour-randomisation primitives). -/
theorem C9_confirmed :
    (∀ (m n : ℕ) (pk : PoreSpy.Cell → Bool) (dt : PoreSpy.Cell → ℚ),
        PoreSpy.allCells m n (fun p => pk p == false) = true →
        ∃ e, PoreSpy.trim_nearby_peaks m n pk dt = Except.error e) ∧
    (∀ (m n : ℕ) (edtFn : (PoreSpy.Cell → Bool) → PoreSpy.Cell → ℚ)
        (blurFn : ℚ → (PoreSpy.Cell → ℚ) → PoreSpy.Cell → ℚ)
        (wsFn : (PoreSpy.Cell → ℚ) → (PoreSpy.Cell → ℕ) → Option (PoreSpy.Cell → Bool) →
          PoreSpy.Cell → ℕ)
        (randFn : (PoreSpy.Cell → ℕ) → PoreSpy.Cell → ℕ)
        (im : PoreSpy.Cell → Bool) (dtArg : Option (PoreSpy.Cell → ℚ)) (rmax : ℕ)
        (sigma : ℚ) (mask randomize : Bool),
        PoreSpy.allCells m n (fun p =>
          PoreSpy.trim_saddle_points m n
            (PoreSpy.find_peaks m n (PoreSpy.snowDt1 blurFn sigma (PoreSpy.snowDt0 edtFn im dtArg)) rmax)
            (PoreSpy.snowDt1 blurFn sigma (PoreSpy.snowDt0 edtFn im dtArg)) 500 p == false) = true →
        ∃ e, PoreSpy.snow_partitioning m n edtFn blurFn wsFn randFn im dtArg rmax sigma
          mask randomize = Except.error e) := by
  constructor
  · intro m n pk dt hall
    refine ⟨_, PoreSpy.trim_nearby_error_of_empty m n pk dt ?_⟩
    intro p hp
    have := PoreSpy.allCells_iff.1 hall p hp
    simpa using this
  · intro m n edtFn blurFn wsFn randFn im dtArg rmax sigma mask randomize hall
    refine ⟨"need at least one array to concatenate", ?_⟩
    simp only [PoreSpy.snow_partitioning]
    rw [PoreSpy.trim_nearby_error_of_empty _ _ _ _ ?_]
    intro p hp
    have := PoreSpy.allCells_iff.1 hall p hp
    simpa using this

/-- Witness for `C9_confirmed`: a 1×1 all-solid image; the distance
transform is identically 0, no peaks are found, and the pipeline errors. -/
theorem C9_confirmed_witness :
    (∃ e, PoreSpy.trim_nearby_peaks 1 1 (fun _ => false) (fun _ => 0) = Except.error e) ∧
    (∃ e, PoreSpy.snow_partitioning 1 1 (fun _ _ => 0) (fun _ d => d) (fun _ _ _ _ => 0)
      (fun r => r) (fun _ => false) none 1 0 true true = Except.error e) :=
  ⟨C9_confirmed.1 1 1 (fun _ => false) (fun _ => 0) (by decide),
   C9_confirmed.2 1 1 (fun _ _ => 0) (fun _ d => d) (fun _ _ _ _ => 0) (fun r => r)
     (fun _ => false) none 1 0 true true (by with_unfolding_all decide)⟩

/-- Claim C10 (confirmed): when `snow_partitioning` is called with
`sigma > 0` (and `return_all=True`, the form modelled here, with no
precomputed `dt` supplied), the `dt` field of the returned bundle is the
raw un-smoothed distance transform `edtFn im`, captured before the
Gaussian blur rebinds the local name — for EVERY blur function, so the
blurred field is used only internally and never returned. -/
theorem C10_confirmed (m n : ℕ)
    (edtFn : (PoreSpy.Cell → Bool) → PoreSpy.Cell → ℚ)
    (blurFn : ℚ → (PoreSpy.Cell → ℚ) → PoreSpy.Cell → ℚ)
    (wsFn : (PoreSpy.Cell → ℚ) → (PoreSpy.Cell → ℕ) → Option (PoreSpy.Cell → Bool) →
      PoreSpy.Cell → ℕ)
    (randFn : (PoreSpy.Cell → ℕ) → PoreSpy.Cell → ℕ)
    (im : PoreSpy.Cell → Bool) (rmax : ℕ) (sigma : ℚ) (mask randomize : Bool)
    (hs : 0 < sigma)
    (hok : PoreSpy.exOk (PoreSpy.snow_partitioning m n edtFn blurFn wsFn randFn im none
      rmax sigma mask randomize) = true) :
    PoreSpy.exDt (PoreSpy.snow_partitioning m n edtFn blurFn wsFn randFn im none
      rmax sigma mask randomize) = edtFn im := by
  simp only [PoreSpy.snow_partitioning] at hok ⊢
  cases htn : PoreSpy.trim_nearby_peaks m n
      (PoreSpy.trim_saddle_points m n
        (PoreSpy.find_peaks m n
          (PoreSpy.snowDt1 blurFn sigma (PoreSpy.snowDt0 edtFn im none)) rmax)
        (PoreSpy.snowDt1 blurFn sigma (PoreSpy.snowDt0 edtFn im none)) 500)
      (PoreSpy.snowDt1 blurFn sigma (PoreSpy.snowDt0 edtFn im none)) with
  | error e =>
      rw [htn] at hok
      exact absurd hok (by simp [PoreSpy.exOk])
  | ok pk3 =>
      rfl

/-- Witness for `C10_confirmed`: a 3×3 single-pore image on which the
pipeline succeeds; the returned `dt` is the raw supplied transform. -/
theorem C10_confirmed_witness :
    (0 : ℚ) < 1 ∧
    PoreSpy.exDt (PoreSpy.snow_partitioning 3 3
        (fun _ => fun p => if p = ((1 : ℤ), (1 : ℤ)) then (2 : ℚ) else 0)
        (fun _ d => d) (fun _ _ _ _ => 0) (fun r => r)
        (fun p => decide (p = (1, 1))) none 1 1 true true) =
      (fun _ => fun p => if p = ((1 : ℤ), (1 : ℤ)) then (2 : ℚ) else 0)
        (fun p => decide (p = (1, 1))) :=
  ⟨by norm_num,
   C10_confirmed 3 3 (fun _ => fun p => if p = ((1 : ℤ), (1 : ℤ)) then (2 : ℚ) else 0)
     (fun _ d => d) (fun _ _ _ _ => 0) (fun r => r) (fun p => decide (p = (1, 1)))
     1 1 true true (by norm_num) (by with_unfolding_all decide)⟩
